import Mathlib

/-!
Verification of the Snowball coin-mixing session state machine
(`src/wallet/src/snowball/mod.rs` of the stegos repository).

This file shallowly embeds the parts of the Snowball state machine that the
claims refer to.  Conventions of the embedding:

* `ParticipantID`, public keys, secret keys, group points and field scalars
  are opaque: they are wrapped naturals, and every external cryptographic
  operation (hashing, scalar multiplication, deterministic key generation,
  DC-net encoding, signature validation, ...) is a parameter of the embedded
  function that consumes it.  The embedding never invents structure that the
  Rust code does not compute itself.
* The incremental `Hasher` of the source is modelled as a function
  `H : List HashTok → Hash` applied to the exact sequence of values fed to
  the hasher, in feed order.
* Rust `HashMap`s are modelled as association lists with `List.lookup`;
  `HashSet`s as lists; insertion replaces any previous binding.
* A function that can `panic!` / fail an `assert!` / index out of bounds
  returns `StepResult.panicked` on that input; a function returning
  `Err(SnowballError)` returns `StepResult.err`.
* The `receive_*` helpers of the source call `prep_rx`, which updates
  `pending_participants`, `participants`, `msg_state`, restarts the timer and
  finally drains the message queue (`handle_enqueued_messages`).  The drain
  is a separate transition in this embedding (`Snowball.handle_enqueued_messages`);
  the phase functions themselves perform the `prep_rx` field updates.
-/

namespace Stegos

/-! ## Basic data -/

/-- A byte, as fed to / produced by the hasher. -/
abbrev Byte := Nat

/-- `stegos_crypto::hash::Hash`: an opaque digest, modelled as its byte vector
(`base_vector()` / `bits()`). -/
abbrev Hash := List Byte

/-- `HASH_SIZE` of `stegos_crypto::hash` (32 bytes). -/
def HASH_SIZE : Nat := 32

/-- `dicemix::ParticipantID`: opaque, totally ordered with decidable
equality (lexicographic (pkey, seed) order in the source). -/
abbrev ParticipantID := Nat

/-- `pbc::PublicKey` (network key of the facilitator). -/
abbrev PbcPublicKey := Nat

/-- `scc::Fr`: an opaque field scalar. -/
structure Fr where
  val : Nat
deriving DecidableEq

/-- `scc::Pt`: an opaque group point. -/
structure Pt where
  val : Nat
deriving DecidableEq

/-- `scc::PublicKey`. -/
structure PublicKey where
  val : Nat
deriving DecidableEq

/-- `scc::SecretKey`. -/
structure SecretKey where
  val : Nat
deriving DecidableEq

/-- `scc::SchnorrSig`. -/
structure SchnorrSig where
  u : Fr
  K : Pt
deriving DecidableEq

/-- `PaymentOutput` (the `UTXO` alias of the module): opaque. -/
structure UTXO where
  tag : Nat
deriving DecidableEq

/-- `PaymentTransaction`: opaque body plus its (composite) signature. -/
structure PaymentTransaction where
  body : Nat
  sig : SchnorrSig
deriving DecidableEq

/-- `ProposedUTXO { recip, amount, data, locked_timestamp }`. -/
structure ProposedUTXO where
  recip : PublicKey
  amount : Int
  data : String
  locked_timestamp : Option Nat
deriving DecidableEq

/-- `MAX_UTXOS`: max number of txout UTXO permitted. -/
def MAX_UTXOS : Nat := 5

/-- A DiceMix sheet: rows of field-element cells. -/
abbrev DcSheet := List (List Fr)

/-- `dicemix::DcMatrix = Vec<DcSheet>`. -/
abbrev DcMatrix := List DcSheet

/-- Values fed to the incremental `Hasher`, one token per `hash(&mut state)`
call, in feed order. -/
inductive HashTok where
  | str (s : String)
  | bytes (b : List Byte)
  | num (n : Nat)
  | pid (p : ParticipantID)
  | fr (x : Fr)
  | skey (s : SecretKey)
deriving DecidableEq

/-- `PoolState` of the source. -/
inductive PoolState where
  | PoolWait
  | PoolFormed
  | PoolFinished
  | PoolRestart
deriving DecidableEq

/-- `MessageState` of the source. -/
inductive MessageState where
  | None
  | SharedKeying
  | Commitment
  | CloakedVals
  | Signature
  | SecretKeying
deriving DecidableEq

/-- `SnowballPayload` (the five inter-participant message kinds). -/
inductive SnowballPayload where
  | SharedKeying (pkey : PublicKey) (ksig : Pt)
  | Commitment (cmt : Hash)
  | CloakedVals (matrix : DcMatrix) (gamma_sum : Fr) (fee_sum : Fr)
      (cloaks : List (ParticipantID × Hash))
  | Signature (sig : SchnorrSig)
  | SecretKeying (skey : SecretKey)
deriving DecidableEq

/-- `SnowballError` variants used by the session core. -/
inductive SnowballError where
  | TooFewParticipants (n : Nat)
  | NotInParticipantList
deriving DecidableEq

/-- `SnowballOutput { tx, is_leader }`. -/
structure SnowballOutput where
  tx : PaymentTransaction
  is_leader : Bool
deriving DecidableEq

/-- Replace-on-insert for association lists (Rust `HashMap::insert`). -/
def mapInsert {β : Type} (m : List (ParticipantID × β)) (k : ParticipantID) (v : β) :
    List (ParticipantID × β) :=
  (k, v) :: m.filter (fun kv => kv.1 ≠ k)

/-! ## The Snowball state

Fields keep the names of the Rust `struct Snowball`; fields whose only use in
the source is network plumbing (`network`, `events`, `timer`) are omitted. -/

structure SnowballState where
  skey : SecretKey
  facilitator : PbcPublicKey
  future_facilitator : Option PbcPublicKey
  poll_state : PoolState
  participant_key : ParticipantID
  participants : List ParticipantID
  my_txins : List (Hash × UTXO)
  my_txouts : List ProposedUTXO
  my_fee : Int
  txin_gamma_sum : Fr
  my_signing_skey : SecretKey
  msg_queue : List (ParticipantID × Hash × SnowballPayload)
  pending_removals : List ParticipantID
  session_round : Nat
  session_id : Hash
  my_round_k : Fr
  sigK_vals : List (ParticipantID × Pt)
  sess_pkey : PublicKey
  sess_skey : SecretKey
  sess_pkeys : List (ParticipantID × PublicKey)
  all_txins : List (ParticipantID × List (Hash × UTXO))
  my_utxos : List Pt
  serialized_utxo_size : Option Nat
  dicemix_nbr_utxo_chunks : Option Nat
  k_cloaks : List (ParticipantID × Hash)
  matrices : List (ParticipantID × DcMatrix)
  cloaked_gamma_adjs : List (ParticipantID × Fr)
  cloaked_fees : List (ParticipantID × Fr)
  commits : List (ParticipantID × Hash)
  commit_phase_participants : List ParticipantID
  trans : PaymentTransaction
  signatures : List (ParticipantID × SchnorrSig)
  excl_participants : List ParticipantID
  excl_cloaks : List (ParticipantID × Hash)
  all_excl_cloaks : List (ParticipantID × List (ParticipantID × Hash))
  sess_skeys : List (ParticipantID × SecretKey)
  all_parts_info : List (ParticipantID × List ParticipantID)
  pending_participants : List ParticipantID
  msg_state : MessageState
deriving DecidableEq

/-- Outcome of one state-machine step: `Ok(Async::NotReady)` carrying the new
state, `Ok(Async::Ready(out))`, `Err(e)`, or a Rust panic. -/
inductive StepResult where
  | ok (s : SnowballState)
  | ready (s : SnowballState) (out : SnowballOutput)
  | err (e : SnowballError)
  | panicked
deriving DecidableEq

/-- A concrete all-zero state used to build concrete test states. -/
def baseState : SnowballState where
  skey := ⟨0⟩
  facilitator := 0
  future_facilitator := none
  poll_state := PoolState.PoolWait
  participant_key := 0
  participants := []
  my_txins := []
  my_txouts := []
  my_fee := 0
  txin_gamma_sum := ⟨0⟩
  my_signing_skey := ⟨0⟩
  msg_queue := []
  pending_removals := []
  session_round := 0
  session_id := []
  my_round_k := ⟨0⟩
  sigK_vals := []
  sess_pkey := ⟨0⟩
  sess_skey := ⟨0⟩
  sess_pkeys := []
  all_txins := []
  my_utxos := []
  serialized_utxo_size := none
  dicemix_nbr_utxo_chunks := none
  k_cloaks := []
  matrices := []
  cloaked_gamma_adjs := []
  cloaked_fees := []
  commits := []
  commit_phase_participants := []
  trans := { body := 0, sig := { u := ⟨0⟩, K := ⟨0⟩ } }
  signatures := []
  excl_participants := []
  excl_cloaks := []
  all_excl_cloaks := []
  sess_skeys := []
  all_parts_info := []
  pending_participants := []
  msg_state := MessageState.None

namespace Snowball

/-! ## `change_facilitator` / `try_update_facilitator` / `reset_state` -/

/-- `Snowball::change_facilitator` (mod.rs:496-516).  The returned `Bool`
records whether `send_pool_join` was invoked at the end. -/
def change_facilitator (st : SnowballState) (facilitator : PbcPublicKey) :
    SnowballState × Bool :=
  let st :=
    match st.poll_state with
    | PoolState.PoolFinished | PoolState.PoolRestart | PoolState.PoolWait => st
    | _ => { st with future_facilitator := some facilitator }
  let st := { st with facilitator := facilitator, future_facilitator := none }
  if st.poll_state = PoolState.PoolRestart ∨ st.poll_state = PoolState.PoolWait then
    (st, true)
  else
    (st, false)

/-- `Snowball::try_update_facilitator` (mod.rs:518-523). -/
def try_update_facilitator (st : SnowballState) : SnowballState :=
  match st.future_facilitator with
  | some facilitator => { st with facilitator := facilitator, future_facilitator := none }
  | none => st

/-- `Snowball::reset_state` (mod.rs:552-559). -/
def reset_state (st : SnowballState) : SnowballState :=
  try_update_facilitator
    { st with poll_state := PoolState.PoolFinished,
              msg_state := MessageState.None,
              msg_queue := [],
              session_round := 0 }

end Snowball

/-! ## `leader_id` -/

/-- The inner comparison loop of `Snowball::leader_id` (mod.rs:1837-1843):
walk the zipped pair of byte vectors and update (returning `true`) as soon as
a byte of the candidate is strictly below the corresponding byte of the
current minimum, ignoring any earlier positions where it is larger. -/
def wantsUpdate : List Byte → List Byte → Bool
  | hp :: ps, hm :: ms => if hp < hm then true else wantsUpdate ps ms
  | _, _ => false

/-- Byte-wise XOR of two byte vectors (`pbits.iter().zip(hbits).map(^)`;
`zip` truncates to the shorter vector). -/
def xorBytes (p h : List Byte) : List Byte :=
  List.zipWith (fun a b => a ^^^ b) p h

namespace Snowball

/-- `Snowball::leader_id` (mod.rs:1817-1846).  `H` is the hash oracle:
`Hash::digest(p)` is `H [HashTok.pid p]` and the hash of the participant list
is `H` of the participants fed in order.  The source first sorts
`self.participants` in place; the updated state is returned alongside the
selected leader.  (`self.participants[0]` panics on an empty list; the
embedding takes the head with default `0`, and every theorem below uses a
non-empty participant list.) -/
def leader_id (H : List HashTok → Hash) (st : SnowballState) :
    SnowballState × ParticipantID :=
  let parts := st.participants.insertionSort (· ≤ ·)
  let st := { st with participants := parts }
  let hash := H (parts.map HashTok.pid)
  let r := parts.foldl
    (fun (acc : ParticipantID × List Byte) p =>
      let phash := H [HashTok.pid p]
      let xor_bits := xorBytes phash hash
      if wantsUpdate xor_bits acc.2 then (p, xor_bits) else acc)
    (parts.headD 0, List.replicate HASH_SIZE 0xff)
  (st, r.1)

end Snowball

/-- `true` when some byte of `xs` is strictly below the byte of `ys` at the
same position (positions beyond the shorter vector are ignored).  This is the
declarative form of the update test actually performed by `leader_id`. -/
def someByteLt (xs ys : List Byte) : Bool :=
  (xs.zip ys).any (fun ab => ab.1 < ab.2)

namespace Snowball

/-- `leader_id` re-stated with the declarative update test `someByteLt`
in place of the scanning loop `wantsUpdate`. -/
def leader_id_alt (H : List HashTok → Hash) (st : SnowballState) :
    SnowballState × ParticipantID :=
  let parts := st.participants.insertionSort (· ≤ ·)
  let st := { st with participants := parts }
  let hash := H (parts.map HashTok.pid)
  let r := parts.foldl
    (fun (acc : ParticipantID × List Byte) p =>
      let phash := H [HashTok.pid p]
      let xor_bits := xorBytes phash hash
      if someByteLt xor_bits acc.2 then (p, xor_bits) else acc)
    (parts.headD 0, List.replicate HASH_SIZE 0xff)
  (st, r.1)

end Snowball

/-- Strict lexicographic order on byte vectors — the order named by the
claim ("lexicographically smallest byte-wise XOR").  Stated from the spec's
words, for comparison with what the code computes. -/
def lexLtBytes : List Byte → List Byte → Bool
  | [], [] => false
  | [], _ :: _ => true
  | _ :: _, [] => false
  | a :: as, b :: bs => if a < b then true else if b < a then false else lexLtBytes as bs

theorem wantsUpdate_eq_someByteLt (xs ys : List Byte) :
    wantsUpdate xs ys = someByteLt xs ys := by
  induction xs generalizing ys with
  | nil => cases ys <;> rfl
  | cons a as ih =>
    cases ys with
    | nil => rfl
    | cons b bs =>
      show (if a < b then true else wantsUpdate as bs) = _
      rw [ih bs]
      by_cases h : a < b <;> simp [someByteLt, h]

theorem someByteLt_self (xs : List Byte) : someByteLt xs xs = false := by
  induction xs with
  | nil => rfl
  | cons a as ih =>
    simp only [someByteLt] at ih
    simp [someByteLt, ih]

/-- The hash oracle of the `leader_id` counterexample: participant `1`
digests to `01 03 00 …`, participant `2` to `05 00 00 …`, and the hash of the
participant list is all-zero, so the XOR distances are the digests
themselves. -/
def leaderHashCex : List HashTok → Hash
  | [HashTok.pid 1] => 1 :: 3 :: List.replicate 30 0
  | [HashTok.pid 2] => 5 :: 0 :: List.replicate 30 0
  | _ => List.replicate 32 0

/-- A state whose (sorted) participant list is `[1, 2]`. -/
def leaderCexState : SnowballState :=
  { baseState with participants := [1, 2] }

/-- **C2 (counterexample).** `leader_id` does not return the participant with
the lexicographically smallest XOR distance: with the digests of
`leaderHashCex`, participant `1`'s XOR vector `01 03 00 …` is lexicographically
strictly below participant `2`'s `05 00 00 …`, yet `leader_id` returns `2`,
because its update scan fires on the later byte `00 < 03` and never compares
the leading bytes. -/
theorem leader_id_not_lex_minimal :
    (Snowball.leader_id leaderHashCex leaderCexState).2 = 2 ∧
    lexLtBytes
      (xorBytes (leaderHashCex [HashTok.pid 1])
        (leaderHashCex (((leaderCexState.participants).insertionSort (· ≤ ·)).map HashTok.pid)))
      (xorBytes (leaderHashCex [HashTok.pid 2])
        (leaderHashCex (((leaderCexState.participants).insertionSort (· ≤ ·)).map HashTok.pid)))
      = true ∧
    (1 : ParticipantID) ∈ leaderCexState.participants := by
  decide

/-- **C2 (amended).** `leader_id` scans the sorted participant list starting
from the pair (first participant, all-`0xff` vector) and replaces the current
minimum by candidate `p` exactly when **some byte** of `p`'s XOR vector is
strictly below the byte of the current minimum vector at the same position —
a relation weaker than lexicographic order.  In particular, when a
candidate's XOR vector equals the current minimum's, no byte is strictly
smaller and the earlier (lower-id, since the list is sorted) participant is
kept. -/
theorem leader_id_is_someByteLt_fold (H : List HashTok → Hash) (st : SnowballState) :
    Snowball.leader_id H st = Snowball.leader_id_alt H st ∧
    ∀ xs : List Byte, someByteLt xs xs = false := by
  refine ⟨?_, someByteLt_self⟩
  simp only [Snowball.leader_id, Snowball.leader_id_alt, wantsUpdate_eq_someByteLt]

/-! ## Message routing: `is_acceptable_message` / `handle_enqueued_messages` -/

/-- The `(msg_state, payload)` match of `Snowball::is_acceptable_message`
(mod.rs:818-837). -/
def payloadMatches : MessageState → SnowballPayload → Bool
  | MessageState.SharedKeying, SnowballPayload.SharedKeying _ _ => true
  | MessageState.Commitment, SnowballPayload.Commitment _ => true
  | MessageState.CloakedVals, SnowballPayload.CloakedVals _ _ _ _ => true
  | MessageState.Signature, SnowballPayload.Signature _ => true
  | MessageState.SecretKeying, SnowballPayload.SecretKeying _ => true
  | _, _ => false

namespace Snowball

/-- `Snowball::is_acceptable_message` (mod.rs:798-838). -/
def is_acceptable_message (st : SnowballState) (from_ : ParticipantID) (sid : Hash)
    (payload : SnowballPayload) : Bool :=
  if sid ≠ st.session_id then false
  else if ¬ st.pending_participants.contains from_ then false
  else payloadMatches st.msg_state payload

end Snowball

/-- The `handle_message` dispatch (mod.rs:840-856), abstracted: the per-phase
handlers and the phase functions they may invoke through `maybe_do` are a
parameter of the queue drain. -/
abbrev Handler := SnowballState → ParticipantID → SnowballPayload → StepResult

namespace Snowball

/-- The drain loop of `Snowball::handle_enqueued_messages` (mod.rs:778-796):
iterate over a snapshot of the queue; while not `PoolFinished`, acceptable
messages have their sender removed from `pending_participants` and are given
to `handle_message` (whose `Ready`/`Err` results return immediately),
unacceptable messages are pushed **back** onto `msg_queue`. -/
def handle_enqueued_messages_aux (handler : Handler) :
    List (ParticipantID × Hash × SnowballPayload) → SnowballState → StepResult
  | [], st => StepResult.ok st
  | (from_, sid, payload) :: rest, st =>
    if st.poll_state ≠ PoolState.PoolFinished then
      if Snowball.is_acceptable_message st from_ sid payload then
        let st :=
          { st with pending_participants := st.pending_participants.filter (fun p => p ≠ from_) }
        match handler st from_ payload with
        | StepResult.ok st' => handle_enqueued_messages_aux handler rest st'
        | r => r
      else
        handle_enqueued_messages_aux handler rest
          { st with msg_queue := st.msg_queue ++ [(from_, sid, payload)] }
    else
      handle_enqueued_messages_aux handler rest st

/-- `Snowball::handle_enqueued_messages` (mod.rs:778-796): clone the queue,
clear it, and drain the snapshot. -/
def handle_enqueued_messages (handler : Handler) (st : SnowballState) : StepResult :=
  handle_enqueued_messages_aux handler st.msg_queue { st with msg_queue := [] }

end Snowball

/-- A message handler that does nothing (any concrete handler works for the
theorems below, which only exercise the unacceptable-message path). -/
def handlerNop : Handler := fun st _ _ => StepResult.ok st

/-- The state of an accepted `StepResult`, if any. -/
def StepResult.stateOf : StepResult → Option SnowballState
  | StepResult.ok s => some s
  | StepResult.ready s _ => some s
  | _ => none

/-- A queued message whose session id `[2]` differs from the current one. -/
def staleMsg : ParticipantID × Hash × SnowballPayload :=
  (7, [2], SnowballPayload.Commitment [9])

/-- A mid-session state (current session id `[1]`, waiting for `Commitment`
messages from participant `7`) whose queue holds `staleMsg`. -/
def c3State : SnowballState :=
  { baseState with poll_state := PoolState.PoolFormed,
                   session_id := [1],
                   msg_state := MessageState.Commitment,
                   pending_participants := [7],
                   msg_queue := [staleMsg] }

/-- **C3 (counterexample).** A message whose session id differs from the
current session id is **not** discarded by `handle_enqueued_messages`: on
`c3State` the wrong-session message `staleMsg` is pushed back and is still in
`msg_queue` afterwards (so it will be re-examined on every later call), while
the claim says it is removed from the state and never re-examined. -/
theorem wrong_session_message_not_discarded :
    ((Snowball.handle_enqueued_messages handlerNop c3State).stateOf.map
        SnowballState.msg_queue) = some [staleMsg] ∧
    staleMsg.2.1 ≠ c3State.session_id ∧
    staleMsg ∈ c3State.msg_queue := by
  decide

theorem handle_enqueued_aux_unacceptable (handler : Handler)
    (msgs : List (ParticipantID × Hash × SnowballPayload)) (st : SnowballState)
    (hp : st.poll_state ≠ PoolState.PoolFinished)
    (hm : ∀ m ∈ msgs, Snowball.is_acceptable_message st m.1 m.2.1 m.2.2 = false) :
    Snowball.handle_enqueued_messages_aux handler msgs st =
      StepResult.ok { st with msg_queue := st.msg_queue ++ msgs } := by
  induction msgs generalizing st with
  | nil => simp [Snowball.handle_enqueued_messages_aux]
  | cons m rest ih =>
    obtain ⟨from_, sid, payload⟩ := m
    have hacc := hm (from_, sid, payload) (List.mem_cons_self _ _)
    rw [Snowball.handle_enqueued_messages_aux, if_pos hp, if_neg (by simp [hacc]),
        ih { st with msg_queue := st.msg_queue ++ [(from_, sid, payload)] } hp
          (fun m hmem => hm m (List.mem_cons_of_mem _ hmem))]
    simp

/-- **C3 (amended).** Messages that are not acceptable — wrong session id,
sender not in `pending_participants`, or payload kind not matching the
current `msg_state` — are **re-queued**, not discarded: whenever
`poll_state ≠ PoolFinished` and every queued message is unacceptable,
`handle_enqueued_messages` returns the state with `msg_queue` unchanged, so
all such messages (past-phase and wrong-session ones included) are
re-examined after every state change.  (Queued messages are dropped only
when `poll_state = PoolFinished`.) -/
theorem unacceptable_messages_are_requeued (handler : Handler) (st : SnowballState)
    (hp : st.poll_state ≠ PoolState.PoolFinished)
    (hm : ∀ m ∈ st.msg_queue, Snowball.is_acceptable_message st m.1 m.2.1 m.2.2 = false) :
    Snowball.handle_enqueued_messages handler st = StepResult.ok st := by
  unfold Snowball.handle_enqueued_messages
  rw [handle_enqueued_aux_unacceptable handler st.msg_queue { st with msg_queue := [] } hp
        (fun m hmem => hm m hmem)]
  simp

/-- Witness for the amended C3 theorem at the concrete state `c3State`. -/
theorem unacceptable_messages_are_requeued_witness :
    c3State.poll_state ≠ PoolState.PoolFinished ∧
    Snowball.handle_enqueued_messages handlerNop c3State = StepResult.ok c3State :=
  ⟨by decide,
   unacceptable_messages_are_requeued handlerNop c3State (by decide) (by decide)⟩

/-! ## `start()` — session initializer -/

/-- The token sequence hashed into the per-round session id
(mod.rs:1030-1037): `"sid"`, the previous session id, the incremented round
counter, then the sorted participants in order. -/
def sidInput (prev : Hash) (round : Nat) (parts : List ParticipantID) : List HashTok :=
  HashTok.str "sid" :: HashTok.bytes prev :: HashTok.num round :: parts.map HashTok.pid

/-- The token sequence hashed into the round signing nonce
(mod.rs:1060-1073): `"kVal"`, the (new) session id, the long-term signing
secret. -/
def kValInput (sid : Hash) (signing_skey : SecretKey) : List HashTok :=
  [HashTok.str "kVal", HashTok.bytes sid, HashTok.skey signing_skey]

/-- `times_G` (mod.rs:1935-1938): `val * Pt::one()`, with scalar
multiplication `smul` and the generator `ptOne` abstract. -/
def times_G (smul : Fr → Pt → Pt) (ptOne : Pt) (val : Fr) : Pt := smul val ptOne

/-- `make_session_key` (mod.rs:1867-1876): hash the session id then the
signing secret, and derive a deterministic keypair from the digest bytes. -/
def make_session_key (H : List HashTok → Hash)
    (makeKeys : List Byte → SecretKey × PublicKey)
    (skey : SecretKey) (sid : Hash) : SecretKey × PublicKey :=
  makeKeys (H [HashTok.bytes sid, HashTok.skey skey])

namespace Snowball

/-- `Snowball::start` (mod.rs:1019-1097): guard on < 3 participants, sort,
bump the round counter (`u16`), derive the session id, the round nonce `k`
and `K = k·G`, the deterministic session keypair, reset `sigK_vals` and
`sess_pkeys` to the own entries, and enter the `SharedKeying` collection
phase (`receive_session_pkeys` → `prep_rx`).  `frOfHash` is `Fr::from(Hash)`;
the network broadcast of `{sess_pk, my_sigK}` has no state effect. -/
def start (H : List HashTok → Hash) (frOfHash : Hash → Fr)
    (smul : Fr → Pt → Pt) (ptOne : Pt)
    (makeKeys : List Byte → SecretKey × PublicKey)
    (st : SnowballState) : StepResult :=
  if st.participants.length < 3 then
    StepResult.err (SnowballError.TooFewParticipants st.participants.length)
  else
    let parts := st.participants.insertionSort (· ≤ ·)
    let round := (st.session_round + 1) % 65536
    let sid := H (sidInput st.session_id round parts)
    let k := frOfHash (H (kValInput sid st.my_signing_skey))
    let my_sigK := times_G smul ptOne k
    let sp := make_session_key H makeKeys st.my_signing_skey sid
    StepResult.ok { st with
      participants := [st.participant_key],
      session_round := round,
      session_id := sid,
      my_round_k := k,
      sigK_vals := [(st.participant_key, my_sigK)],
      sess_pkey := sp.2,
      sess_skey := sp.1,
      sess_pkeys := [(st.participant_key, sp.2)],
      pending_participants := parts.filter (fun p => p ≠ st.participant_key),
      msg_state := MessageState.SharedKeying }

end Snowball

/-- Sorting with `≤` is invariant under permutation of the input list. -/
theorem insertionSort_eq_of_perm {l₁ l₂ : List Nat} (h : l₁.Perm l₂) :
    l₁.insertionSort (· ≤ ·) = l₂.insertionSort (· ≤ ·) :=
  List.eq_of_perm_of_sorted
    (((List.perm_insertionSort _ l₁).trans h).trans (List.perm_insertionSort _ l₂).symm)
    (List.sorted_insertionSort _ l₁) (List.sorted_insertionSort _ l₂)

/-- **C4.** On a successful `start()`, the new session id is exactly
`H("sid" ‖ previous session id ‖ round counter ‖ sorted participant list)`,
and two states with the same previous session id, the same round counter and
participant lists that are permutations of each other compute identical
session ids. -/
theorem session_id_formula_and_perm_invariant
    (H : List HashTok → Hash) (frOfHash : Hash → Fr) (smul : Fr → Pt → Pt) (ptOne : Pt)
    (makeKeys : List Byte → SecretKey × PublicKey)
    (st₁ st₂ st₁' st₂' : SnowballState)
    (h₁ : Snowball.start H frOfHash smul ptOne makeKeys st₁ = StepResult.ok st₁')
    (h₂ : Snowball.start H frOfHash smul ptOne makeKeys st₂ = StepResult.ok st₂')
    (hsid : st₁.session_id = st₂.session_id)
    (hround : st₁.session_round = st₂.session_round)
    (hperm : st₁.participants.Perm st₂.participants) :
    st₁'.session_id = H (sidInput st₁.session_id ((st₁.session_round + 1) % 65536)
        (st₁.participants.insertionSort (· ≤ ·))) ∧
    st₁'.session_id = st₂'.session_id := by
  unfold Snowball.start at h₁ h₂
  split at h₁
  · exact absurd h₁ (by simp)
  split at h₂
  · exact absurd h₂ (by simp)
  simp only [StepResult.ok.injEq] at h₁ h₂
  subst h₁
  subst h₂
  refine ⟨rfl, ?_⟩
  show H (sidInput st₁.session_id _ _) = H (sidInput st₂.session_id _ _)
  rw [hsid, hround, insertionSort_eq_of_perm hperm]

/-- Concrete hash / crypto oracles used by the closed witnesses. -/
def cH : List HashTok → Hash := fun toks => [toks.length]

def cFr : Hash → Fr := fun h => ⟨h.length⟩

def cSmul : Fr → Pt → Pt := fun a p => ⟨a.val + p.val⟩

def cOne : Pt := ⟨1⟩

def cKeys : List Byte → SecretKey × PublicKey := fun b => (⟨b.length⟩, ⟨b.length⟩)

def c4s1 : SnowballState := { baseState with participants := [1, 2, 3] }

def c4s2 : SnowballState := { baseState with participants := [3, 1, 2] }

def c4r1 : SnowballState :=
  (Snowball.start cH cFr cSmul cOne cKeys c4s1).stateOf.getD baseState

def c4r2 : SnowballState :=
  (Snowball.start cH cFr cSmul cOne cKeys c4s2).stateOf.getD baseState

/-- Witness for C4 at participant lists `[1,2,3]` and `[3,1,2]`. -/
theorem session_id_perm_invariant_witness :
    Snowball.start cH cFr cSmul cOne cKeys c4s1 = StepResult.ok c4r1 ∧
    c4s1.participants.Perm c4s2.participants ∧
    c4r1.session_id = c4r2.session_id :=
  ⟨by decide, by decide,
   (session_id_formula_and_perm_invariant cH cFr cSmul cOne cKeys c4s1 c4s2 c4r1 c4r2
      (by decide) (by decide) (by decide) (by decide) (by decide)).2⟩

/-- **C5.** On a successful `start()`, the round signing nonce is
`Fr(H("kVal" ‖ session_id ‖ long-term signing secret))`, the `K` value stored
(and broadcast in the `SharedKeying` payload) for this node is
`times_G` of that nonce, and the `"kVal"` hash input is injective in the
session id: any change to the session id changes the hash input the nonce is
derived from. -/
theorem round_nonce_derivation
    (H : List HashTok → Hash) (frOfHash : Hash → Fr) (smul : Fr → Pt → Pt) (ptOne : Pt)
    (makeKeys : List Byte → SecretKey × PublicKey)
    (st st' : SnowballState)
    (h : Snowball.start H frOfHash smul ptOne makeKeys st = StepResult.ok st') :
    st'.my_round_k = frOfHash (H (kValInput st'.session_id st.my_signing_skey)) ∧
    List.lookup st.participant_key st'.sigK_vals =
      some (times_G smul ptOne st'.my_round_k) ∧
    (∀ sid sid' : Hash, ∀ sk : SecretKey, sid ≠ sid' →
      kValInput sid sk ≠ kValInput sid' sk) := by
  unfold Snowball.start at h
  split at h
  · exact absurd h (by simp)
  simp only [StepResult.ok.injEq] at h
  subst h
  refine ⟨rfl, by simp [List.lookup], ?_⟩
  intro sid sid' sk hne hEq
  apply hne
  simpa [kValInput] using hEq

/-- Witness for C5 at the concrete state `c4s1`. -/
theorem round_nonce_derivation_witness :
    Snowball.start cH cFr cSmul cOne cKeys c4s1 = StepResult.ok c4r1 ∧
    c4r1.my_round_k = cFr (cH (kValInput c4r1.session_id c4s1.my_signing_skey)) :=
  ⟨by decide,
   (round_nonce_derivation cH cFr cSmul cOne cKeys c4s1 c4r1 (by decide)).1⟩

/-! ## `hash_data` and `handle_cloaked_vals` -/

/-- `hash_data` (mod.rs:1852-1865): hash `"CM"`, every matrix cell in
sheet / row / cell order, then the cloaked gamma adjustment and the cloaked
fee. -/
def hash_data (H : List HashTok → Hash) (matrix : DcMatrix)
    (cloaked_gamma_adj cloaked_fee : Fr) : Hash :=
  H (HashTok.str "CM" ::
     ((matrix.map (fun sheet => (sheet.map (fun row => row.map HashTok.fr)).flatten)).flatten
       ++ [HashTok.fr cloaked_gamma_adj, HashTok.fr cloaked_fee]))

namespace Snowball

/-- `Snowball::handle_cloaked_vals` (mod.rs:921-960).  `none` models the
`.expect("Can't access commit")` panic when no commitment is stored for the
sender.  On acceptance the sender's matrix, cloaked scalars and cloaks are
stored and `maybe_do` (mod.rs:858-874) pushes the sender back into
`participants`; the phase transition `maybe_do` performs when
`pending_participants` empties is the separate phase-step function.  On
rejection nothing is stored and the sender stays out of `participants`. -/
def handle_cloaked_vals (H : List HashTok → Hash) (st : SnowballState)
    (from_ : ParticipantID) (matrix : DcMatrix) (gamma_sum fee_sum : Fr)
    (cloaks : List (ParticipantID × Hash)) : Option SnowballState :=
  match List.lookup from_ st.commits with
  | none => none
  | some cmt =>
    if cmt = hash_data H matrix gamma_sum fee_sum
        ∧ (∀ p ∈ st.excl_participants, (List.lookup p cloaks).isSome)
        ∧ (∀ pc ∈ cloaks, pc.1 ∈ st.excl_participants) then
      some { st with
        matrices := mapInsert st.matrices from_ matrix,
        cloaked_gamma_adjs := mapInsert st.cloaked_gamma_adjs from_ gamma_sum,
        cloaked_fees := mapInsert st.cloaked_fees from_ fee_sum,
        all_excl_cloaks := mapInsert st.all_excl_cloaks from_ cloaks,
        participants := st.participants ++ [from_] }
    else
      some st

end Snowball

theorem lookup_mapInsert_self {β : Type} (m : List (ParticipantID × β))
    (k : ParticipantID) (v : β) : List.lookup k (mapInsert m k v) = some v := by
  simp [mapInsert, List.lookup]

/-- **C6.** With a commitment `cmt` stored for sender `q`, an inbound
`CloakedVals` from `q` is accepted — matrix, gamma sum, fee sum and cloaks
stored under `q` and `q` pushed back into the participant set — exactly when
`H("CM" ‖ matrix ‖ gamma_sum ‖ fee_sum) = cmt` **and** the key set of the
`cloaks` map covers every participant this node excluded **and** contains no
key outside that excluded set; otherwise the state is returned unchanged, so
nothing is stored and `q` (removed from `pending_participants` by the drain
loop and not re-added to `participants`) is treated as dropped. -/
theorem cloaked_vals_acceptance (H : List HashTok → Hash) (st : SnowballState)
    (from_ : ParticipantID) (matrix : DcMatrix) (gamma_sum fee_sum : Fr)
    (cloaks : List (ParticipantID × Hash)) (cmt : Hash)
    (hc : List.lookup from_ st.commits = some cmt) :
    ((cmt = hash_data H matrix gamma_sum fee_sum ∧
      (∀ p ∈ st.excl_participants, (List.lookup p cloaks).isSome) ∧
      (∀ pc ∈ cloaks, pc.1 ∈ st.excl_participants)) →
      (Snowball.handle_cloaked_vals H st from_ matrix gamma_sum fee_sum cloaks).map
          (fun s => (List.lookup from_ s.matrices, List.lookup from_ s.cloaked_gamma_adjs,
            List.lookup from_ s.cloaked_fees, List.lookup from_ s.all_excl_cloaks,
            decide (from_ ∈ s.participants)))
        = some (some matrix, some gamma_sum, some fee_sum, some cloaks, true)) ∧
    (¬(cmt = hash_data H matrix gamma_sum fee_sum ∧
      (∀ p ∈ st.excl_participants, (List.lookup p cloaks).isSome) ∧
      (∀ pc ∈ cloaks, pc.1 ∈ st.excl_participants)) →
      Snowball.handle_cloaked_vals H st from_ matrix gamma_sum fee_sum cloaks = some st) := by
  constructor
  · intro hC
    simp only [Snowball.handle_cloaked_vals, hc]
    rw [if_pos hC]
    simp [lookup_mapInsert_self]
  · intro hC
    simp only [Snowball.handle_cloaked_vals, hc]
    rw [if_neg hC]

/-- Concrete data for the C6 witness: sender `7`, excluded participant `8`,
matching commitment and exactly-covering cloaks. -/
def c6Matrix : DcMatrix := [[[⟨4⟩, ⟨5⟩]]]

def c6State : SnowballState :=
  { baseState with
      commits := [(7, hash_data cH c6Matrix ⟨1⟩ ⟨2⟩)],
      excl_participants := [8],
      pending_participants := [7],
      msg_state := MessageState.CloakedVals,
      participants := [0] }

/-- Witness for C6: on `c6State` the matching `CloakedVals` from `7` is
accepted and stored. -/
theorem cloaked_vals_acceptance_witness :
    List.lookup 7 c6State.commits = some (hash_data cH c6Matrix ⟨1⟩ ⟨2⟩) ∧
    (Snowball.handle_cloaked_vals cH c6State 7 c6Matrix ⟨1⟩ ⟨2⟩ [(8, [5])]).map
        (fun s => (List.lookup 7 s.matrices, List.lookup 7 s.cloaked_gamma_adjs,
          List.lookup 7 s.cloaked_fees, List.lookup 7 s.all_excl_cloaks,
          decide (7 ∈ s.participants)))
      = some (some c6Matrix, some ⟨1⟩, some ⟨2⟩, some [(8, [5])], true) :=
  ⟨by decide,
   (cloaked_vals_acceptance cH c6State 7 c6Matrix ⟨1⟩ ⟨2⟩ [(8, [5])]
      (hash_data cH c6Matrix ⟨1⟩ ⟨2⟩) (by decide)).1 (by decide)⟩

/-- A state in an active session phase (`poll_state = PoolFormed`), with
facilitator `1`. -/
def activeState : SnowballState :=
  { baseState with poll_state := PoolState.PoolFormed, facilitator := 1 }

/-- **C1.** If `change_facilitator` is invoked while the session is in an
active phase, the claim says the `facilitator` field is left unchanged and
the new key is kept in `future_facilitator`.  The code instead overwrites
`self.facilitator` unconditionally right after the match and clears
`future_facilitator`: on a state in phase `PoolFormed` with facilitator `1`,
calling `change_facilitator` with key `2` yields facilitator `2` and
`future_facilitator = none`, so the queued key can never be applied by
`reset_state` / `try_update_facilitator`. -/
theorem change_facilitator_overwrites_in_active_phase :
    (Snowball.change_facilitator activeState 2).1.facilitator = 2 ∧
    (Snowball.change_facilitator activeState 2).1.future_facilitator = none ∧
    activeState.facilitator = 1 ∧
    activeState.poll_state = PoolState.PoolFormed := by
  decide

/-! ## Later round phases: `commit`, `share_cloaked_data`,
`make_supertransaction`, `sign_supertransaction`, `blame_discovery`

The external cryptographic library calls these phases consume are collected
in `CryptoOps`; the embedding mirrors the control flow and state updates of
the source around them. -/

/-- The opaque cryptographic operations consumed by the phase functions
(`stegos_crypto` / `stegos_blockchain` library calls).  `dcKeys`, `dcDecode`,
`dcScalarOpen` and `dcReconstruct` take the whole state, standing for the
source's calls that pass several state fields. -/
structure CryptoOps where
  H : List HashTok → Hash
  frOfHash : Hash → Fr
  frOfInt : Int → Fr
  frSub : Fr → Fr → Fr
  smul : Fr → Pt → Pt
  ptOne : Pt
  ptInf : Pt
  ptAdd : Pt → Pt → Pt
  makeKeys : List Byte → SecretKey × PublicKey
  dcKeys : SnowballState → List (ParticipantID × Hash)
  mkOutput : ProposedUTXO → UTXO × Fr
  serializeUtxo : UTXO → List Byte
  splitMessage : List Byte → List Fr
  vcmt : UTXO → Pt
  balanceOk : SnowballState → List UTXO → Fr → Bool
  dcEncodeSheet : Nat → Nat → List Byte → List ParticipantID → ParticipantID →
    List (ParticipantID × Hash) → DcSheet
  dcEncodeScalar : Fr → List ParticipantID → ParticipantID →
    List (ParticipantID × Hash) → Fr
  dcDecode : SnowballState → List (List Byte)
  dcScalarOpen : List ParticipantID → List (ParticipantID × Fr) →
    List ParticipantID → List (ParticipantID × List (ParticipantID × Hash)) → Fr
  frToI64 : Fr → Option Int
  deserializeUtxo : List Byte → Nat → Option UTXO
  mkSuperTx : SecretKey → Fr → Pt → List UTXO → List UTXO → Int → Fr →
    Option PaymentTransaction
  sigAdd : SchnorrSig → SchnorrSig → SchnorrSig
  validateTx : SnowballState → PaymentTransaction → Bool
  dcReconstruct : SnowballState → List ParticipantID

/-- Look up every listed key, `none` as soon as one is missing (the
`.expect` on a `HashMap::get` inside a loop). -/
def lookupAll {β : Type} : List ParticipantID → List (ParticipantID × β) →
    Option (List (ParticipantID × β))
  | [], _ => some []
  | p :: rest, m =>
    match List.lookup p m with
    | none => none
    | some v =>
      match lookupAll rest m with
      | none => none
      | some more => some ((p, v) :: more)

/-- The `trn_txins` collection of `make_supertransaction` (mod.rs:1308-1322):
the UTXOs of every commit-phase participant's TXINs, in participant order;
`none` models the `.expect("Can't access TXINS")` panic. -/
def collect_phase_txins : List ParticipantID → List (ParticipantID × List (Hash × UTXO)) →
    Option (List UTXO)
  | [], _ => some []
  | p :: rest, all =>
    match List.lookup p all with
    | none => none
    | some pairs =>
      match collect_phase_txins rest all with
      | none => none
      | some more => some (pairs.map Prod.snd ++ more)

/-- The `K_sum` fold of `make_supertransaction` (mod.rs:1385-1390); `none`
models the `.expect("can't get sigK value")` panic. -/
def sum_sigK (ptAdd : Pt → Pt → Pt) (acc : Pt) :
    List ParticipantID → List (ParticipantID × Pt) → Option Pt
  | [], _ => some acc
  | p :: rest, vals =>
    match List.lookup p vals with
    | none => none
    | some k => sum_sigK ptAdd (ptAdd acc k) rest vals

/-- The signature-summing fold of `sign_supertransaction` (mod.rs:1439-1445);
`none` models the `.expect("can't get peer signature")` panic. -/
def sum_sigs (sigAdd : SchnorrSig → SchnorrSig → SchnorrSig) (acc : SchnorrSig) :
    List ParticipantID → List (ParticipantID × SchnorrSig) → Option SchnorrSig
  | [], _ => some acc
  | p :: rest, sigs =>
    match List.lookup p sigs with
    | none => none
    | some s => sum_sigs sigAdd (sigAdd acc s) rest sigs

/-- `Snowball::encode_matrix` (mod.rs:1638-1671): one DC-net sheet per
proposed UTXO (sheet ids starting at 1), padded with sheets of the empty
message up to `MAX_UTXOS`. -/
def encode_matrix (ops : CryptoOps) (participants : List ParticipantID)
    (my_utxos : List UTXO) (my_id : ParticipantID)
    (k_cloaks : List (ParticipantID × Hash)) (n_chunks : Nat) : DcMatrix :=
  let real := ((List.range my_utxos.length).zip my_utxos).map
    (fun iu => ops.dcEncodeSheet (iu.1 + 1) n_chunks (ops.serializeUtxo iu.2)
      participants my_id k_cloaks)
  let dummies := (List.range (MAX_UTXOS - my_utxos.length)).map
    (fun i => ops.dcEncodeSheet (my_utxos.length + i + 1) n_chunks []
      participants my_id k_cloaks)
  real ++ dummies

/-- The argument check of `Snowball::new` (mod.rs:362-363):
`assert!(my_txouts.len() <= MAX_UTXOS)` — the only constraint `new` places
on the proposed-output list. -/
def new_txouts_check (my_txouts : List ProposedUTXO) : Bool :=
  my_txouts.length ≤ MAX_UTXOS

namespace Snowball

/-- `Snowball::had_dropouts` (mod.rs:1270-1279). -/
def had_dropouts (st : SnowballState) : Bool :=
  !(st.participants.all (fun p => st.commit_phase_participants.contains p)
    && st.commit_phase_participants.all (fun p => st.participants.contains p))

/-- `Snowball::commit` (mod.rs:1099-1201): guard on < 3 participants, record
the commit-phase participant set, derive the pairwise cloaks, build the
fresh UTXOs, establish the serialized UTXO size on first use — indexing
`my_utxos[0]`, which panics when there are no proposed outputs — check the
own zero-balance `assert!`, encode the cloaked matrix and scalars, store the
own commitment and enter the `Commitment` collection phase. -/
def commit (ops : CryptoOps) (st : SnowballState) : StepResult :=
  if st.participants.length < 3 then
    StepResult.err (SnowballError.TooFewParticipants st.participants.length)
  else
    let st := { st with commit_phase_participants := st.participants }
    let st := { st with k_cloaks := ops.dcKeys st }
    let my_pairs := st.my_txouts.map ops.mkOutput
    let my_utxos := my_pairs.map Prod.fst
    let my_gamma_adj := my_pairs.foldl (fun g (pr : UTXO × Fr) => ops.frSub g pr.2) st.txin_gamma_sum
    let st := { st with my_utxos := my_pairs.map (fun (pr : UTXO × Fr) => ops.vcmt pr.1) }
    let stSizes : Option SnowballState :=
      match st.serialized_utxo_size with
      | none =>
        match my_utxos with
        | [] => none
        | u0 :: _ =>
          some { st with
            serialized_utxo_size := some (ops.serializeUtxo u0).length,
            dicemix_nbr_utxo_chunks := some (ops.splitMessage (ops.serializeUtxo u0)).length }
      | some _ => some st
    match stSizes with
    | none => StepResult.panicked
    | some st =>
      if !(ops.balanceOk st my_utxos my_gamma_adj) then StepResult.panicked
      else
        match st.dicemix_nbr_utxo_chunks with
        | none => StepResult.panicked
        | some n_chunks =>
          let my_matrix := encode_matrix ops st.commit_phase_participants my_utxos
            st.participant_key st.k_cloaks n_chunks
          let my_cloaked_gamma_adj := ops.dcEncodeScalar my_gamma_adj
            st.commit_phase_participants st.participant_key st.k_cloaks
          let my_cloaked_fee := ops.dcEncodeScalar (ops.frOfInt st.my_fee)
            st.commit_phase_participants st.participant_key st.k_cloaks
          let my_commit := hash_data ops.H my_matrix my_cloaked_gamma_adj my_cloaked_fee
          StepResult.ok { st with
            matrices := [(st.participant_key, my_matrix)],
            cloaked_gamma_adjs := [(st.participant_key, my_cloaked_gamma_adj)],
            cloaked_fees := [(st.participant_key, my_cloaked_fee)],
            commits := [(st.participant_key, my_commit)],
            participants := [st.participant_key],
            pending_participants := st.participants.filter (fun p => p ≠ st.participant_key),
            msg_state := MessageState.Commitment }

/-- `Snowball::share_cloaked_data` (mod.rs:1203-1268): guard on < 3
participants, record the participants that dropped since the commit phase
together with their cloaks (the `.expect("can't get k_cloaks")` and the own
matrix / scalar lookups are panics when missing), and enter the
`CloakedVals` collection phase. -/
def share_cloaked_data (_ops : CryptoOps) (st : SnowballState) : StepResult :=
  if st.participants.length < 3 then
    StepResult.err (SnowballError.TooFewParticipants st.participants.length)
  else
    let dropped := st.commit_phase_participants.filter
      (fun p => !(st.participants.contains p))
    match lookupAll dropped st.k_cloaks with
    | none => StepResult.panicked
    | some droppedCloaks =>
      let st := { st with excl_participants := dropped, excl_cloaks := droppedCloaks }
      let st := { st with all_excl_cloaks := [(st.participant_key, st.excl_cloaks)] }
      match List.lookup st.participant_key st.matrices,
            List.lookup st.participant_key st.cloaked_gamma_adjs,
            List.lookup st.participant_key st.cloaked_fees with
      | some _, some _, some _ =>
        let st := { st with all_parts_info := [(st.participant_key, st.participants)] }
        StepResult.ok { st with
          participants := [st.participant_key],
          pending_participants := st.participants.filter (fun p => p ≠ st.participant_key),
          msg_state := MessageState.CloakedVals }
      | _, _, _ => StepResult.panicked

/-- `Snowball::make_supertransaction` (mod.rs:1281-1419): guard on < 3
participants; on any dropout since the commit phase, restart the round via
`start()` with the reduced participant set; otherwise decode the aggregate
matrix, build the super-transaction, store the own signature and enter the
`Signature` collection phase. -/
def make_supertransaction (ops : CryptoOps) (st : SnowballState) : StepResult :=
  if st.participants.length < 3 then
    StepResult.err (SnowballError.TooFewParticipants st.participants.length)
  else if had_dropouts st then
    start ops.H ops.frOfHash ops.smul ops.ptOne ops.makeKeys st
  else
    let st := { st with
      commit_phase_participants := st.commit_phase_participants.insertionSort (· ≤ ·) }
    match collect_phase_txins st.commit_phase_participants st.all_txins with
    | none => StepResult.panicked
    | some trn_txins =>
      match st.serialized_utxo_size, st.dicemix_nbr_utxo_chunks with
      | some sz, some _n =>
        let msgs := ops.dcDecode st
        let all_utxos := msgs.filterMap (fun m => ops.deserializeUtxo m sz)
        let all_utxo_cmts := all_utxos.map ops.vcmt
        if !(st.my_utxos.all (fun c => all_utxo_cmts.contains c)) then
          StepResult.panicked
        else
          let gamma_adj := ops.dcScalarOpen st.participants st.cloaked_gamma_adjs
            st.excl_participants st.all_excl_cloaks
          let total_fees_f := ops.dcScalarOpen st.participants st.cloaked_fees
            st.excl_participants st.all_excl_cloaks
          let total_fees := (ops.frToI64 total_fees_f).getD 0
          match sum_sigK ops.ptAdd ops.ptInf st.commit_phase_participants st.sigK_vals with
          | none => StepResult.panicked
          | some K_sum =>
            match ops.mkSuperTx st.my_signing_skey st.my_round_k K_sum trn_txins
                all_utxos total_fees gamma_adj with
            | none => StepResult.panicked
            | some ttx =>
              StepResult.ok { st with
                trans := ttx,
                signatures := [(st.participant_key, ttx.sig)],
                participants := [st.participant_key],
                pending_participants := st.participants.filter (fun p => p ≠ st.participant_key),
                msg_state := MessageState.Signature }
      | _, _ => StepResult.panicked

/-- `Snowball::sign_supertransaction` (mod.rs:1421-1482): if some
commit-phase participant's signature is missing, restart the round via
`start()`; otherwise aggregate the signatures, validate the transaction —
on success emit it (leader flag from `leader_id`) and reset the session,
on failure share the session secret key and enter the `SecretKeying`
collection phase for blame discovery. -/
def sign_supertransaction (ops : CryptoOps) (st : SnowballState) : StepResult :=
  if !(st.commit_phase_participants.all (fun p => (List.lookup p st.signatures).isSome)) then
    start ops.H ops.frOfHash ops.smul ops.ptOne ops.makeKeys st
  else
    match sum_sigs ops.sigAdd st.trans.sig
        (st.commit_phase_participants.filter (fun p => p ≠ st.participant_key))
        st.signatures with
    | none => StepResult.panicked
    | some total =>
      let st := { st with trans := { st.trans with sig := total } }
      if ops.validateTx st st.trans then
        let lr := leader_id ops.H st
        let tx := lr.1.trans
        let leader := lr.2
        let st := Snowball.reset_state lr.1
        let st := { st with msg_queue := [], session_round := 0 }
        StepResult.ready st { tx := tx, is_leader := decide (st.participant_key = leader) }
      else
        StepResult.ok { st with
          sess_skeys := [(st.participant_key, st.sess_skey)],
          participants := [st.participant_key],
          pending_participants := st.participants.filter (fun p => p ≠ st.participant_key),
          msg_state := MessageState.SecretKeying }

/-- `Snowball::blame_discovery` (mod.rs:1484-1523): with dropouts during the
`SecretKeying` collection no blame can be assigned and the round restarts
without them; otherwise `dc_reconstruct` (external) names the cheaters, who
are excluded, and the round restarts.  The `serialized_utxo_size.unwrap()`
is a panic when the size was never established. -/
def blame_discovery (ops : CryptoOps) (st : SnowballState) : StepResult :=
  if had_dropouts st then
    start ops.H ops.frOfHash ops.smul ops.ptOne ops.makeKeys st
  else
    match st.serialized_utxo_size with
    | none => StepResult.panicked
    | some _ =>
      let new_p_excl := ops.dcReconstruct st
      start ops.H ops.frOfHash ops.smul ops.ptOne ops.makeKeys
        { st with participants := st.participants.filter (fun p => !(new_p_excl.contains p)) }

end Snowball

/-- `true` exactly on `Err(SnowballError::TooFewParticipants(_))`. -/
def isTooFew : StepResult → Bool
  | StepResult.err (SnowballError.TooFewParticipants _) => true
  | _ => false

/-- A concrete instance of the external operations, for the closed witnesses
and counterexamples. -/
def cOps : CryptoOps where
  H := cH
  frOfHash := cFr
  frOfInt := fun i => ⟨i.toNat⟩
  frSub := fun a b => ⟨a.val + b.val⟩
  smul := cSmul
  ptOne := cOne
  ptInf := ⟨0⟩
  ptAdd := fun a b => ⟨a.val + b.val⟩
  makeKeys := cKeys
  dcKeys := fun _ => []
  mkOutput := fun _ => (⟨0⟩, ⟨0⟩)
  serializeUtxo := fun u => [u.tag]
  splitMessage := fun b => b.map (fun x => ⟨x⟩)
  vcmt := fun u => ⟨u.tag⟩
  balanceOk := fun _ _ _ => true
  dcEncodeSheet := fun _ _ _ _ _ _ => []
  dcEncodeScalar := fun g _ _ _ => g
  dcDecode := fun _ => []
  dcScalarOpen := fun _ _ _ _ => ⟨0⟩
  frToI64 := fun f => some (Int.ofNat f.val)
  deserializeUtxo := fun _ _ => none
  mkSuperTx := fun _ _ _ _ _ _ _ => some { body := 0, sig := { u := ⟨0⟩, K := ⟨0⟩ } }
  sigAdd := fun a _ => a
  validateTx := fun _ _ => true
  dcReconstruct := fun _ => []

theorem start_tooFew_iff (H : List HashTok → Hash) (frOfHash : Hash → Fr)
    (smul : Fr → Pt → Pt) (ptOne : Pt) (makeKeys : List Byte → SecretKey × PublicKey)
    (st : SnowballState) :
    isTooFew (Snowball.start H frOfHash smul ptOne makeKeys st) = true ↔
      st.participants.length < 3 := by
  by_cases h : st.participants.length < 3
  · simp [Snowball.start, h, isTooFew]
  · simp [Snowball.start, h, isTooFew]

theorem commit_tooFew_iff (ops : CryptoOps) (st : SnowballState) :
    isTooFew (Snowball.commit ops st) = true ↔ st.participants.length < 3 := by
  by_cases h : st.participants.length < 3
  · simp [Snowball.commit, h, isTooFew]
  · rw [Snowball.commit.eq_def, if_neg h]
    simp only [h, iff_false]
    intro habs
    revert habs
    split
    · simp [isTooFew]
    · split
      · simp [isTooFew]
      · split <;> simp [isTooFew]

theorem share_tooFew_iff (ops : CryptoOps) (st : SnowballState) :
    isTooFew (Snowball.share_cloaked_data ops st) = true ↔
      st.participants.length < 3 := by
  by_cases h : st.participants.length < 3
  · simp [Snowball.share_cloaked_data, h, isTooFew]
  · rw [Snowball.share_cloaked_data.eq_def, if_neg h]
    simp only [h, iff_false]
    intro habs
    revert habs
    split
    · simp [isTooFew]
    · split <;> simp [isTooFew]

theorem make_tooFew_iff (ops : CryptoOps) (st : SnowballState) :
    isTooFew (Snowball.make_supertransaction ops st) = true ↔
      st.participants.length < 3 := by
  by_cases h : st.participants.length < 3
  · simp [Snowball.make_supertransaction, h, isTooFew]
  · rw [Snowball.make_supertransaction.eq_def, if_neg h]
    by_cases hd : Snowball.had_dropouts st
    · rw [if_pos hd]
      exact start_tooFew_iff ops.H ops.frOfHash ops.smul ops.ptOne ops.makeKeys st
    · rw [if_neg hd]
      simp only [h, iff_false]
      intro habs
      revert habs
      split
      · simp [isTooFew]
      · split
        · split
          · simp [isTooFew]
          · split
            · simp [isTooFew]
            · split <;> simp [isTooFew]
        · simp [isTooFew]

/-- **C8.** Each of the four phase entry points — `start`, `commit`,
`share_cloaked_data` and `make_supertransaction` — returns the error
`TooFewParticipants` exactly when it is entered with fewer than 3
participants; with 3 or more participants none of them produces that error
(the dropout branch of `make_supertransaction` restarts via `start` with the
same, unshrunk participant list, so the nested guard passes as well; other
failure modes are panics, not this error). -/
theorem too_few_participants_guards (ops : CryptoOps) (st : SnowballState) :
    (isTooFew (Snowball.start ops.H ops.frOfHash ops.smul ops.ptOne ops.makeKeys st) = true
      ↔ st.participants.length < 3) ∧
    (isTooFew (Snowball.commit ops st) = true ↔ st.participants.length < 3) ∧
    (isTooFew (Snowball.share_cloaked_data ops st) = true ↔ st.participants.length < 3) ∧
    (isTooFew (Snowball.make_supertransaction ops st) = true ↔ st.participants.length < 3) :=
  ⟨start_tooFew_iff ops.H ops.frOfHash ops.smul ops.ptOne ops.makeKeys st,
   commit_tooFew_iff ops st, share_tooFew_iff ops st, make_tooFew_iff ops st⟩

/-! ## C7: participant counts across round restarts -/

theorem length_lt_of_missing {l₁ l₂ : List Nat} (h₁ : l₁.Nodup) (h₂ : l₂.Nodup)
    (hsub : ∀ p ∈ l₁, p ∈ l₂) {p : Nat} (hp₂ : p ∈ l₂) (hp₁ : p ∉ l₁) :
    l₁.length < l₂.length := by
  rw [← List.toFinset_card_of_nodup h₁, ← List.toFinset_card_of_nodup h₂]
  apply Finset.card_lt_card
  rw [Finset.ssubset_def]
  constructor
  · intro x hx
    rw [List.mem_toFinset] at hx ⊢
    exact hsub x hx
  · intro hcon
    have hmem := hcon (List.mem_toFinset.mpr hp₂)
    rw [List.mem_toFinset] at hmem
    exact hp₁ hmem

/-- **C7 (amended).** The restarts from `make_supertransaction` (dropouts
since the commit phase: `had_dropouts`) and from `sign_supertransaction`
(some commit-phase participant's signature missing) strictly decrease the
participant count relative to the commit-phase set of the aborted round,
given the structural facts maintained by `prep_rx`/`maybe_do`: the current
(responding) participants are among the commit-phase participants, every
current participant has a stored signature, and both lists are
duplicate-free.  A restart from `blame_discovery` need **not** decrease the
count: when blame excludes no current participant, the next round starts
with the same participants (see the counterexample theorem). -/
theorem restart_strictly_decreases (st : SnowballState)
    (hsub : ∀ p ∈ st.participants, p ∈ st.commit_phase_participants)
    (hnd₁ : st.participants.Nodup) (hnd₂ : st.commit_phase_participants.Nodup) :
    (Snowball.had_dropouts st = true →
      st.participants.length < st.commit_phase_participants.length) ∧
    ((∀ p ∈ st.participants, (List.lookup p st.signatures).isSome) →
     (st.commit_phase_participants.all
        (fun p => (List.lookup p st.signatures).isSome)) = false →
      st.participants.length < st.commit_phase_participants.length) := by
  constructor
  · intro hdrop
    unfold Snowball.had_dropouts at hdrop
    rw [Bool.not_eq_true'] at hdrop
    by_cases hB : st.commit_phase_participants.all
        (fun p => st.participants.contains p) = true
    · exfalso
      have hA : st.participants.all
          (fun p => st.commit_phase_participants.contains p) = true := by
        rw [List.all_eq_true]
        intro p hp
        exact List.elem_iff.mpr (hsub p hp)
      rw [hA, hB] at hdrop
      exact absurd hdrop (by decide)
    · rw [Bool.not_eq_true, List.all_eq_false] at hB
      obtain ⟨p, hpc, hnp⟩ := hB
      refine length_lt_of_missing hnd₁ hnd₂ hsub hpc ?_
      intro hmem
      exact hnp (List.elem_iff.mpr hmem)
  · intro hall hmiss
    rw [List.all_eq_false] at hmiss
    obtain ⟨p, hpc, hnone⟩ := hmiss
    refine length_lt_of_missing hnd₁ hnd₂ hsub hpc ?_
    intro hmem
    exact hnone (hall p hmem)

/-- A state in which participants `[1, 2]` responded out of commit-phase set
`[1, 2, 3]`: participant `3` dropped out. -/
def c7bState : SnowballState :=
  { baseState with participants := [1, 2], commit_phase_participants := [1, 2, 3] }

/-- Witness for the amended C7 theorem: with `[1,2]` of commit-phase
`[1,2,3]` responding, `had_dropouts` fires and `2 < 3`. -/
theorem restart_strictly_decreases_witness :
    Snowball.had_dropouts c7bState = true ∧
    c7bState.participants.length < c7bState.commit_phase_participants.length :=
  ⟨by decide,
   (restart_strictly_decreases c7bState (by decide) (by decide) (by decide)).1 (by decide)⟩

/-- A full commit-phase set `[1,2,3]` (this node is `1`) that finished the
`SecretKeying` collection with no dropouts, in round 1. -/
def c7State : SnowballState :=
  { baseState with participant_key := 1, participants := [1, 2, 3],
                   commit_phase_participants := [1, 2, 3],
                   serialized_utxo_size := some 4, session_round := 1 }

/-- **C7 (counterexample).** A `blame_discovery` restart in which
`dc_reconstruct` blames nobody (`cOps.dcReconstruct` returns `[]`): the next
round is started (`session_round` goes from 1 to 2) with the same three
participants — this node plus two pending — so the participant count does
**not** strictly decrease across this round restart, and the total number of
rounds is not bounded by the initial participant count. -/
theorem blame_restart_without_decrease :
    (Snowball.blame_discovery cOps c7State).stateOf.map
        (fun s => s.participants.length + s.pending_participants.length) = some 3 ∧
    (Snowball.blame_discovery cOps c7State).stateOf.map
        SnowballState.session_round = some 2 ∧
    c7State.participants.length = 3 ∧
    Snowball.had_dropouts c7State = false := by
  decide

/-! ## C10: empty proposed-output list panics in `commit()` -/

/-- **C10.** `Snowball::new`'s only check on the proposed-output list is
`my_txouts.len() <= MAX_UTXOS` (`new_txouts_check`), which accepts the empty
list; but any state with `my_txouts` empty and `serialized_utxo_size` not
yet established — as on the first round of a session — panics in `commit()`
at the `my_utxos[0]` indexing (the fresh-UTXO list is one entry per proposed
output, hence empty), whatever the external crypto operations do.  A
non-empty proposed-output list is thus an undocumented precondition for the
session to proceed past the first commit phase. -/
theorem commit_panics_on_empty_txouts (ops : CryptoOps) (st : SnowballState)
    (hsz : st.serialized_utxo_size = none)
    (hout : st.my_txouts = [])
    (hlen : ¬ st.participants.length < 3) :
    Snowball.commit ops st = StepResult.panicked ∧
    new_txouts_check [] = true := by
  refine ⟨?_, by decide⟩
  rw [Snowball.commit.eq_def, if_neg hlen]
  simp [hout, hsz]

/-- A first-round state with three participants and no proposed outputs. -/
def c10State : SnowballState :=
  { baseState with participants := [1, 2, 3] }

/-- Witness for C10 at `c10State` with the concrete operations `cOps`. -/
theorem commit_panics_on_empty_txouts_witness :
    c10State.serialized_utxo_size = none ∧ c10State.my_txouts = [] ∧
    Snowball.commit cOps c10State = StepResult.panicked :=
  ⟨by decide, by decide,
   (commit_panics_on_empty_txouts cOps c10State (by decide) (by decide) (by decide)).1⟩

/-! ## C9: pool announcement processing (`on_pool_notification`) -/

/-- One member entry of a `PoolNotification::Started` announcement
(`stegos_node::txpool`): participant id, claimed TXIN hashes, UTXO bodies
and ownership signature. -/
structure PoolEntry where
  participant : ParticipantID
  txins : List Hash
  utxos : List UTXO
  ownsig : SchnorrSig
deriving DecidableEq

/-- The payload of `PoolNotification::Started`. -/
structure PoolInfo where
  session_id : Hash
  participants : List PoolEntry
deriving DecidableEq

/-- `stegos_node::txpool::PoolNotification`. -/
inductive PoolNotification where
  | Canceled
  | Started (info : PoolInfo)
deriving DecidableEq

/-- Rust `Vec::dedup`: remove **consecutive** duplicates, keeping the first
of each run (on a sorted list this deduplicates fully). -/
def dedupConsec : List ParticipantID → List ParticipantID
  | [] => []
  | [a] => [a]
  | a :: b :: rest =>
    if a = b then dedupConsec (b :: rest) else a :: dedupConsec (b :: rest)

theorem mem_dedupConsec (x : ParticipantID) (l : List ParticipantID) :
    x ∈ dedupConsec l ↔ x ∈ l := by
  induction l with
  | nil => simp [dedupConsec]
  | cons a rest ih =>
    cases rest with
    | nil => simp [dedupConsec]
    | cons b rest' =>
      by_cases hab : a = b
      · subst hab
        rw [dedupConsec, if_pos rfl, ih]
        simp
      · rw [dedupConsec, if_neg hab]
        simp only [List.mem_cons] at ih ⊢
        rw [ih]

/-- The member-validation loop of `on_pool_notification` (mod.rs:602-617):
members whose ownership signature verifies are appended to `participants`
and their (TXIN, UTXO) pairs stored in `all_txins`; the others are skipped
silently. -/
def pool_entries_fold (validate : List (Hash × UTXO) → SchnorrSig → Bool) :
    List PoolEntry → SnowballState → SnowballState
  | [], st => st
  | elt :: rest, st =>
    let pairs := elt.txins.zip elt.utxos
    if validate pairs elt.ownsig then
      pool_entries_fold validate rest
        { st with participants := st.participants ++ [elt.participant],
                  all_txins := mapInsert st.all_txins elt.participant pairs }
    else
      pool_entries_fold validate rest st

namespace Snowball

/-- The `PoolNotification::Started` processing of `on_pool_notification`
(mod.rs:600-631), after the own-membership check: store the announced
session id, reset and refill `participants` by ownership validation, apply
`pending_removals`, sort, dedup, and mark the pool formed. -/
def pool_started_state (validate : List (Hash × UTXO) → SchnorrSig → Bool)
    (st : SnowballState) (info : PoolInfo) : SnowballState :=
  let st := { st with session_id := info.session_id,
                      participants := ([] : List ParticipantID) }
  let st := pool_entries_fold validate info.participants st
  let st := { st with
    participants := st.participants.filter (fun p => !(st.pending_removals.contains p)),
    pending_removals := [] }
  let st := { st with participants := dedupConsec (st.participants.insertionSort (· ≤ ·)) }
  { st with poll_state := PoolState.PoolFormed }

/-- `Snowball::on_pool_notification` (mod.rs:562-635).  `validate` stands
for `validate_ownership` (mod.rs:1896-1912, backed by the external
`validate_sig`) applied to an entry's zipped (TXIN, UTXO) pairs and
ownership signature.  A notification from a different facilitator is
ignored (`Ok(NotReady)`).  The source's trailing `self.start()` is the
separate `Snowball.start` step; this function returns the formed-pool
state. -/
def on_pool_notification (validate : List (Hash × UTXO) → SchnorrSig → Bool)
    (st : SnowballState) (from_ : PbcPublicKey) (notification : PoolNotification) :
    StepResult :=
  if from_ ≠ st.facilitator then StepResult.ok st
  else
    match notification with
    | PoolNotification.Canceled =>
      let changed := st.future_facilitator.isSome
      let st := reset_state st
      if changed then StepResult.ok st
      else StepResult.ok { st with poll_state := PoolState.PoolRestart }
    | PoolNotification.Started info =>
      if (info.participants.find? (fun k => k.participant = st.participant_key)).isNone then
        StepResult.err SnowballError.NotInParticipantList
      else
        StepResult.ok (pool_started_state validate st info)

end Snowball

theorem lookup_cons_ne {β : Type} (a : ParticipantID) (b : β)
    (rest : List (ParticipantID × β)) (k' : ParticipantID) (h : k' ≠ a) :
    List.lookup k' ((a, b) :: rest) = List.lookup k' rest := by
  have hb : (k' == a) = false := beq_eq_false_iff_ne.mpr h
  simp [List.lookup, hb]

theorem lookup_cons_self {β : Type} (a : ParticipantID) (b : β)
    (rest : List (ParticipantID × β)) :
    List.lookup a ((a, b) :: rest) = some b := by
  simp [List.lookup]

theorem lookup_filter_ne {β : Type} (m : List (ParticipantID × β)) (k k' : ParticipantID)
    (h : k' ≠ k) :
    List.lookup k' (m.filter (fun kv => kv.1 ≠ k)) = List.lookup k' m := by
  induction m with
  | nil => rfl
  | cons kv rest ih =>
    obtain ⟨a, b⟩ := kv
    by_cases hk : a = k
    · subst hk
      rw [List.filter_cons_of_neg (by simp), ih, lookup_cons_ne _ _ _ _ h]
    · rw [List.filter_cons_of_pos (by simp [hk])]
      by_cases hk' : k' = a
      · subst hk'
        rw [lookup_cons_self, lookup_cons_self]
      · rw [lookup_cons_ne _ _ _ _ hk', lookup_cons_ne _ _ _ _ hk', ih]

theorem lookup_mapInsert_ne {β : Type} (m : List (ParticipantID × β))
    (k k' : ParticipantID) (v : β) (h : k' ≠ k) :
    List.lookup k' (mapInsert m k v) = List.lookup k' m := by
  unfold mapInsert
  have hb : (k' == k) = false := beq_eq_false_iff_ne.mpr h
  simp only [List.lookup, hb]
  exact lookup_filter_ne m k k' h

theorem pool_fold_pending_removals
    (validate : List (Hash × UTXO) → SchnorrSig → Bool)
    (entries : List PoolEntry) (st : SnowballState) :
    (pool_entries_fold validate entries st).pending_removals = st.pending_removals := by
  induction entries generalizing st with
  | nil => rfl
  | cons elt rest ih =>
    rw [pool_entries_fold]
    by_cases hv : validate (elt.txins.zip elt.utxos) elt.ownsig = true
    · rw [if_pos hv, ih]
    · rw [if_neg hv, ih]

theorem pool_fold_participants
    (validate : List (Hash × UTXO) → SchnorrSig → Bool)
    (entries : List PoolEntry) (st : SnowballState) :
    (pool_entries_fold validate entries st).participants =
      st.participants ++
        (entries.filter (fun e => validate (e.txins.zip e.utxos) e.ownsig)).map
          (fun e => e.participant) := by
  induction entries generalizing st with
  | nil => simp [pool_entries_fold]
  | cons elt rest ih =>
    rw [pool_entries_fold]
    by_cases hv : validate (elt.txins.zip elt.utxos) elt.ownsig = true
    · rw [if_pos hv, ih,
        @List.filter_cons_of_pos PoolEntry
          (fun e => validate (e.txins.zip e.utxos) e.ownsig) elt rest hv]
      simp
    · rw [if_neg hv, ih,
        @List.filter_cons_of_neg PoolEntry
          (fun e => validate (e.txins.zip e.utxos) e.ownsig) elt rest hv]

theorem pool_fold_all_txins_lookup
    (validate : List (Hash × UTXO) → SchnorrSig → Bool)
    (entries : List PoolEntry) (st : SnowballState) (q : ParticipantID)
    (h : ∀ e ∈ entries, e.participant = q →
      validate (e.txins.zip e.utxos) e.ownsig = false) :
    List.lookup q (pool_entries_fold validate entries st).all_txins =
      List.lookup q st.all_txins := by
  induction entries generalizing st with
  | nil => rfl
  | cons elt rest ih =>
    rw [pool_entries_fold]
    by_cases hv : validate (elt.txins.zip elt.utxos) elt.ownsig = true
    · rw [if_pos hv]
      rw [ih _ (fun e' he' => h e' (List.mem_cons_of_mem _ he'))]
      have hne : elt.participant ≠ q := by
        intro hEq
        have := h elt (List.mem_cons_self _ _) hEq
        rw [hv] at this
        cases this
      exact lookup_mapInsert_ne _ _ _ _ (Ne.symm hne)
    · rw [if_neg hv]
      exact ih _ (fun e' he' => h e' (List.mem_cons_of_mem _ he'))

theorem pool_fold_all_txins_valid
    (validate : List (Hash × UTXO) → SchnorrSig → Bool)
    (entries : List PoolEntry) (st : SnowballState) (e : PoolEntry)
    (he : e ∈ entries)
    (hnd : (entries.map (fun x => x.participant)).Nodup)
    (hv : validate (e.txins.zip e.utxos) e.ownsig = true) :
    List.lookup e.participant (pool_entries_fold validate entries st).all_txins =
      some (e.txins.zip e.utxos) := by
  induction entries generalizing st with
  | nil => cases he
  | cons elt rest ih =>
    rw [List.map_cons, List.nodup_cons] at hnd
    obtain ⟨hnotin, hndrest⟩ := hnd
    rcases List.mem_cons.mp he with rfl | hmem
    · rw [pool_entries_fold, if_pos hv]
      rw [pool_fold_all_txins_lookup]
      · exact lookup_mapInsert_self _ _ _
      · intro e'' he'' heq
        exact absurd (heq ▸ List.mem_map_of_mem (fun x => x.participant) he'') hnotin
    · have hne : elt.participant ≠ e.participant := by
        intro hEq
        exact hnotin (hEq ▸ List.mem_map_of_mem (fun x => x.participant) hmem)
      rw [pool_entries_fold]
      by_cases hv' : validate (elt.txins.zip elt.utxos) elt.ownsig = true
      · rw [if_pos hv']
        exact ih _ hmem hndrest
      · rw [if_neg hv']
        exact ih _ hmem hndrest

theorem pool_started_participants
    (validate : List (Hash × UTXO) → SchnorrSig → Bool)
    (st : SnowballState) (info : PoolInfo) (hpr : st.pending_removals = []) :
    (Snowball.pool_started_state validate st info).participants =
      dedupConsec ((((info.participants.filter
          (fun e => validate (e.txins.zip e.utxos) e.ownsig)).map
            (fun e => e.participant))).insertionSort (· ≤ ·)) := by
  simp only [Snowball.pool_started_state]
  rw [pool_fold_participants, pool_fold_pending_removals]
  simp [hpr]

theorem pool_started_all_txins
    (validate : List (Hash × UTXO) → SchnorrSig → Bool)
    (st : SnowballState) (info : PoolInfo) :
    (Snowball.pool_started_state validate st info).all_txins =
      (pool_entries_fold validate info.participants
        { st with session_id := info.session_id,
                  participants := ([] : List ParticipantID) }).all_txins := rfl

/-- **C9.** On a `PoolNotification::Started` from the expected facilitator —
with `pending_removals` empty (nothing in the repository ever fills it, so
it is empty in every reachable state) and each member announced once: if
this node's participant key is not in the announced list, the call returns
the error `NotInParticipantList`; otherwise every announced member whose
ownership signature fails `validate_ownership` (abstracted as `validate`) is
omitted from the resulting participant set and its (TXIN, UTXO) pairs are
not recorded in `all_txins`, while every member with a valid signature is
retained and its pairs are stored.  Outbound messages only ever go to
`participants`, so an omitted member is never contacted. -/
theorem pool_announce_filtering (validate : List (Hash × UTXO) → SchnorrSig → Bool)
    (st : SnowballState) (info : PoolInfo)
    (hpr : st.pending_removals = [])
    (hnd : (info.participants.map (fun e => e.participant)).Nodup) :
    ((info.participants.find? (fun k => k.participant = st.participant_key)).isNone = true →
      Snowball.on_pool_notification validate st st.facilitator
          (PoolNotification.Started info) =
        StepResult.err SnowballError.NotInParticipantList) ∧
    (∀ elt ∈ info.participants,
      (info.participants.find? (fun k => k.participant = st.participant_key)).isNone = false →
      (validate (elt.txins.zip elt.utxos) elt.ownsig = true →
        (Snowball.on_pool_notification validate st st.facilitator
            (PoolNotification.Started info)).stateOf.map
            (fun s => (decide (elt.participant ∈ s.participants),
                       List.lookup elt.participant s.all_txins))
          = some (true, some (elt.txins.zip elt.utxos))) ∧
      (validate (elt.txins.zip elt.utxos) elt.ownsig = false →
        (Snowball.on_pool_notification validate st st.facilitator
            (PoolNotification.Started info)).stateOf.map
            (fun s => (decide (elt.participant ∈ s.participants),
                       List.lookup elt.participant s.all_txins))
          = some (false, List.lookup elt.participant st.all_txins))) := by
  have hno : ¬ (st.facilitator ≠ st.facilitator) := fun hcon => hcon rfl
  have hopn : Snowball.on_pool_notification validate st st.facilitator
      (PoolNotification.Started info) =
      (if (info.participants.find? (fun k => k.participant = st.participant_key)).isNone then
        StepResult.err SnowballError.NotInParticipantList
      else StepResult.ok (Snowball.pool_started_state validate st info)) := by
    simp only [Snowball.on_pool_notification]
    rw [if_neg hno]
  constructor
  · intro hfind
    rw [hopn, if_pos hfind]
  · intro elt helt hfound
    rw [hopn, if_neg (by simp [hfound])]
    constructor
    · intro hv
      have hmem : elt.participant ∈
          (Snowball.pool_started_state validate st info).participants := by
        rw [pool_started_participants validate st info hpr, mem_dedupConsec,
          (List.perm_insertionSort (· ≤ ·) _).mem_iff]
        exact List.mem_map_of_mem _ (List.mem_filter_of_mem helt hv)
      have hlk : List.lookup elt.participant
          (Snowball.pool_started_state validate st info).all_txins =
          some (elt.txins.zip elt.utxos) := by
        rw [pool_started_all_txins]
        exact pool_fold_all_txins_valid validate info.participants _ elt helt hnd hv
      simp [StepResult.stateOf, hmem, hlk]
    · intro hv
      have hnmem : elt.participant ∉
          (Snowball.pool_started_state validate st info).participants := by
        rw [pool_started_participants validate st info hpr, mem_dedupConsec,
          (List.perm_insertionSort (· ≤ ·) _).mem_iff]
        intro hcon
        obtain ⟨e', he'mem, he'eq⟩ := List.mem_map.mp hcon
        have he'parts := List.mem_filter.mp he'mem
        have heq : e' = elt := List.inj_on_of_nodup_map hnd he'parts.1 helt he'eq
        rw [heq, hv] at he'parts
        cases he'parts.2
      have hlk : List.lookup elt.participant
          (Snowball.pool_started_state validate st info).all_txins =
          List.lookup elt.participant st.all_txins := by
        rw [pool_started_all_txins]
        refine pool_fold_all_txins_lookup validate info.participants _ elt.participant ?_
        intro e'' he'' heq
        have : e'' = elt := List.inj_on_of_nodup_map hnd he'' helt heq
        rw [this, hv]
      simp [StepResult.stateOf, hnmem, hlk]

/-- An announcement for the C9 witness: node `1` is announced, member `2`'s
signature is valid, member `3`'s is not (`cValidate` accepts only signatures
with `u = ⟨0⟩`). -/
def cValidate : List (Hash × UTXO) → SchnorrSig → Bool :=
  fun _ sig => sig.u = ⟨0⟩

def c9Info : PoolInfo :=
  { session_id := [9],
    participants :=
      [ { participant := 1, txins := [[1]], utxos := [⟨1⟩],
          ownsig := { u := ⟨0⟩, K := ⟨0⟩ } },
        { participant := 2, txins := [[2]], utxos := [⟨2⟩],
          ownsig := { u := ⟨0⟩, K := ⟨0⟩ } },
        { participant := 3, txins := [[3]], utxos := [⟨3⟩],
          ownsig := { u := ⟨7⟩, K := ⟨0⟩ } } ] }

def c9State : SnowballState :=
  { baseState with participant_key := 1 }

/-- Witness for C9: on `c9Info`, member `3`'s invalid signature drops it —
it is absent from the resulting participant set and its TXIN pairs are not
recorded. -/
theorem pool_announce_filtering_witness :
    cValidate ((c9Info.participants.get ⟨2, by decide⟩).txins.zip
        (c9Info.participants.get ⟨2, by decide⟩).utxos)
        (c9Info.participants.get ⟨2, by decide⟩).ownsig = false ∧
    (Snowball.on_pool_notification cValidate c9State c9State.facilitator
        (PoolNotification.Started c9Info)).stateOf.map
        (fun s => (decide ((c9Info.participants.get ⟨2, by decide⟩).participant
                     ∈ s.participants),
                   List.lookup (c9Info.participants.get ⟨2, by decide⟩).participant
                     s.all_txins))
      = some (false, List.lookup (c9Info.participants.get ⟨2, by decide⟩).participant
          c9State.all_txins) :=
  ⟨by decide,
   ((pool_announce_filtering cValidate c9State c9Info (by decide)
      (by decide)).2 (c9Info.participants.get ⟨2, by decide⟩) (by decide)
      (by decide)).2 (by decide)⟩

end Stegos
